import Mathlib

/-!
The template `godot::print_error` of godot_cpp/godot.hpp.

Embedding of the variadic forwarding template

    template <typename... Args>
    void print_error(Args... p_args) {
        Variant variants[sizeof...(p_args)] = { p_args... };
        print_error(stringify_variants(Span(variants)));
    }

The three host collaborators the body uses (the `Variant` converting
constructors, `stringify_variants` and the one-`String` `print_error` sink)
are declared by the engine header the file includes; they are parameters of
the embedding (`Host`).  A call is run against a trace of collaborator calls,
passed explicitly, so that the number and the order of the calls can be
stated.
-/

namespace godot

/-- How a call of `godot::print_error` ends: it returns (`void`), a failure
raised by a collaborator leaves the function, or the instantiation is
rejected because the array declarator has bound zero. -/
inductive Outcome (ε : Type) where
  | returned : Outcome ε
  | raised (e : ε) : Outcome ε
  | ill_formed : Outcome ε
  deriving DecidableEq, Repr

/-- One collaborator call made by `godot::print_error`. -/
inductive Event (Arg Variant : Type) where
  | convert (a : Arg) : Event Arg Variant
  | stringify (vs : List Variant) : Event Arg Variant
  | sink (msg : String) : Event Arg Variant
  deriving DecidableEq, Repr

/-- The host engine's side of the shim: `Variant(arg)`, `stringify_variants`
and the error sink `print_error(const String &)`.  Each may fail.  The call on
line 11 passes one `String`: the host's function, which is not a template, is
the better candidate than the variadic template, so that call is the sink. -/
structure Host (Arg Variant ε : Type) where
  variant : Arg → Except ε Variant
  stringify_variants : List Variant → Except ε String
  print_error : String → Except ε Unit

/-- Results of collaborator calls can be compared when failures and values can. -/
instance instDecidableEqExcept {ε α : Type} [DecidableEq ε] [DecidableEq α] :
    DecidableEq (Except ε α)
  | .ok a, .ok b =>
    if hab : a = b then isTrue (by rw [hab]) else isFalse (fun hc => hab (by injection hc))
  | .error a, .error b =>
    if hab : a = b then isTrue (by rw [hab]) else isFalse (fun hc => hab (by injection hc))
  | .ok _, .error _ => isFalse (fun hc => by cases hc)
  | .error _, .ok _ => isFalse (fun hc => by cases hc)

variable {Arg Variant ε : Type}

/-- The value of `sizeof...(p_args)`: the number of elements of the pack. -/
def sizeof_pack (p_args : List Arg) : Nat := p_args.length

/-- The initialiser `= { p_args... }`: the elements of the array are
copy-initialised from the pack in the order of the braced list, one converting
constructor call each; the first constructor that fails ends the
initialisation with its failure. -/
def init_variants (h : Host Arg Variant ε) :
    List Arg → List (Event Arg Variant) → List (Event Arg Variant) × Except ε (List Variant)
  | [], tr => (tr, .ok [])
  | a :: rest, tr =>
    match h.variant a with
    | .error e => (tr ++ [Event.convert a], .error e)
    | .ok v =>
      match init_variants h rest (tr ++ [Event.convert a]) with
      | (tr1, .error e) => (tr1, .error e)
      | (tr1, .ok vs) => (tr1, .ok (v :: vs))

/-- The view `Span(variants)` of the whole array: same elements, same order. -/
def Span (variants : List Variant) : List Variant := variants

/-- The template `godot::print_error`.  Line 10 declares
`Variant variants[sizeof...(p_args)]`; an array declarator needs a bound
greater than zero, so the instantiation for the empty pack is rejected.
Otherwise the array is initialised from the pack, `stringify_variants` is
called on the span of the array and its result is handed to the host sink. -/
def print_error (h : Host Arg Variant ε) (p_args : List Arg)
    (tr : List (Event Arg Variant)) : List (Event Arg Variant) × Outcome ε :=
  if sizeof_pack p_args = 0 then (tr, Outcome.ill_formed)
  else
    match init_variants h p_args tr with
    | (tr1, .error e) => (tr1, Outcome.raised e)
    | (tr1, .ok variants) =>
      match h.stringify_variants (Span variants) with
      | .error e => (tr1 ++ [Event.stringify (Span variants)], Outcome.raised e)
      | .ok msg =>
        match h.print_error msg with
        | .error e =>
          (tr1 ++ [Event.stringify (Span variants), Event.sink msg], Outcome.raised e)
        | .ok _ =>
          (tr1 ++ [Event.stringify (Span variants), Event.sink msg], Outcome.returned)

/-- The collaborator calls of one call of `print_error`, started on an empty trace. -/
def call_trace (h : Host Arg Variant ε) (p_args : List Arg) : List (Event Arg Variant) :=
  (print_error h p_args []).1

/-- The outcome of one call of `print_error`, started on an empty trace. -/
def call_outcome (h : Host Arg Variant ε) (p_args : List Arg) : Outcome ε :=
  (print_error h p_args []).2

/-- A caller making several calls one after the other on the same host; a
failure of one call is seen by the caller and the next call is made all the
same. -/
def run_calls (h : Host Arg Variant ε) :
    List (List Arg) → List (Event Arg Variant) → List (Event Arg Variant) × List (Outcome ε)
  | [], tr => (tr, [])
  | c :: cs, tr =>
    let r := print_error h c tr
    let rs := run_calls h cs r.1
    (rs.1, r.2 :: rs.2)

/-- The messages the host sink received, in order. -/
def sink_messages : List (Event Arg Variant) → List String
  | [] => []
  | Event.sink msg :: tr => msg :: sink_messages tr
  | _ :: tr => sink_messages tr

/-- The sequences `stringify_variants` was called on, in order. -/
def stringify_calls : List (Event Arg Variant) → List (List Variant)
  | [] => []
  | Event.stringify vs :: tr => vs :: stringify_calls tr
  | _ :: tr => stringify_calls tr

/-- The arguments a `Variant` was constructed from, in order. -/
def converted : List (Event Arg Variant) → List Arg
  | [] => []
  | Event.convert a :: tr => a :: converted tr
  | _ :: tr => converted tr

/-! ## The call on line 11

Inside the template the name `print_error` also names the template itself
(with `Args` deduced as the one type `String`), so which function line 11
calls is decided by overload resolution between the template and what the
engine header declares.  The header is not part of this repository; what it
declares is a parameter (`SinkDecl`).  `print_error_fuel` is the template with
that call resolved in this way, a nested entry of the template costing one
unit of fuel. -/

/-- What the engine header makes visible at line 11 under the name
`print_error`, apart from the template: nothing, a function that is not a
template and takes the `String` as it is (`print_error(const String &)`), or
one whose parameter the `String` reaches only through a conversion. -/
inductive SinkDecl where
  | absent : SinkDecl
  | of_String : SinkDecl
  | of_convertible : SinkDecl
  deriving DecidableEq, Repr

/-- The function a call of the name `print_error` can reach. -/
inductive Callee where
  | variadic_template : Callee
  | host_sink : Callee
  deriving DecidableEq, Repr

/-- A candidate of the overload resolution for `print_error(String)`. -/
structure Candidate where
  callee : Callee
  is_template : Bool
  exact_match : Bool
  deriving DecidableEq, Repr

/-- The template of lines 8-9 as a candidate: `Args` is deduced as `String`
and the parameter is taken by value, an exact match. -/
def template_candidate : Candidate :=
  { callee := Callee.variadic_template, is_template := true, exact_match := true }

/-- The candidates the header contributes. -/
def host_candidates : SinkDecl → List Candidate
  | SinkDecl.absent => []
  | SinkDecl.of_String =>
    [{ callee := Callee.host_sink, is_template := false, exact_match := true }]
  | SinkDecl.of_convertible =>
    [{ callee := Callee.host_sink, is_template := false, exact_match := false }]

/-- Candidate `c1` is better than `c2`: it needs no conversion where `c2`
needs one, or both match equally and `c1` is not a template specialisation
while `c2` is. -/
def better (c1 c2 : Candidate) : Bool :=
  (c1.exact_match && !c2.exact_match) ||
  ((c1.exact_match == c2.exact_match) && !c1.is_template && c2.is_template)

/-- The best candidate of a list, starting from `c`. -/
def best_candidate : Candidate → List Candidate → Candidate
  | c, [] => c
  | c, c1 :: cs => if better c1 c then best_candidate c1 cs else best_candidate c cs

/-- The function the call `print_error(stringify_variants(...))` of line 11
reaches. -/
def resolve_inner_call (s : SinkDecl) : Callee :=
  (best_candidate template_candidate (host_candidates s)).callee

/-- The engine header as the template sees it: the collaborators, what the
header declares under the name `print_error` (the field `print_error` is the
declared function and is used only when the resolution reaches it), and how a
`String` is passed as a call-site argument of the template. -/
structure Header (Arg Variant ε : Type) extends Host Arg Variant ε where
  sink_decl : SinkDecl
  string_arg : String → Arg

/-- A run of the template: the trace, the number of times the body of the
template was entered, and the outcome (`none` when the fuel ran out before the
call ended). -/
structure Run (Arg Variant ε : Type) where
  trace : List (Event Arg Variant)
  entries : Nat
  outcome : Option (Outcome ε)

/-- The template with the call on line 11 resolved by `resolve_inner_call`:
when the callee is the host sink, the message is handed to it; when it is the
template, the body is entered again with the message as the one argument. -/
def print_error_fuel (d : Header Arg Variant ε) :
    Nat → List Arg → List (Event Arg Variant) → Run Arg Variant ε
  | 0, _, tr => { trace := tr, entries := 0, outcome := none }
  | fuel + 1, p_args, tr =>
    if sizeof_pack p_args = 0 then
      { trace := tr, entries := 0, outcome := some Outcome.ill_formed }
    else
      match init_variants d.toHost p_args tr with
      | (tr1, .error e) => { trace := tr1, entries := 1, outcome := some (Outcome.raised e) }
      | (tr1, .ok variants) =>
        match d.stringify_variants (Span variants) with
        | .error e =>
          { trace := tr1 ++ [Event.stringify (Span variants)], entries := 1,
            outcome := some (Outcome.raised e) }
        | .ok msg =>
          match resolve_inner_call d.sink_decl with
          | Callee.host_sink =>
            match d.print_error msg with
            | .error e =>
              { trace := tr1 ++ [Event.stringify (Span variants), Event.sink msg],
                entries := 1, outcome := some (Outcome.raised e) }
            | .ok _ =>
              { trace := tr1 ++ [Event.stringify (Span variants), Event.sink msg],
                entries := 1, outcome := some Outcome.returned }
          | Callee.variadic_template =>
            let r := print_error_fuel d fuel [d.string_arg msg]
              (tr1 ++ [Event.stringify (Span variants)])
            { trace := r.trace, entries := r.entries + 1, outcome := r.outcome }

/-! ## A concrete host -/

/-- Call-site argument values of the example scenario: a string, an integer,
a null value, or a value of a type the example host cannot box. -/
inductive DemoArg where
  | str (s : String) : DemoArg
  | int (i : Int) : DemoArg
  | nil : DemoArg
  | bad (tag : Nat) : DemoArg
  deriving DecidableEq, Repr

/-- Boxed values of the example host. -/
inductive DemoVariant where
  | STRING (s : String) : DemoVariant
  | INT (i : Int) : DemoVariant
  | NIL : DemoVariant
  deriving DecidableEq, Repr

/-- Failures of the example host. -/
inductive DemoFailure where
  | conversion (tag : Nat) : DemoFailure
  | stringify : DemoFailure
  | sink : DemoFailure
  deriving DecidableEq, Repr

/-- Total wrapping used by the example host on the arguments it accepts. -/
def demo_wrap : DemoArg → DemoVariant
  | DemoArg.str s => DemoVariant.STRING s
  | DemoArg.int i => DemoVariant.INT i
  | DemoArg.nil => DemoVariant.NIL
  | DemoArg.bad _ => DemoVariant.NIL

/-- Rendering of one boxed value by the example host. -/
def demo_render : DemoVariant → String
  | DemoVariant.STRING s => s
  | DemoVariant.INT i => if i = 42 then "42" else "int"
  | DemoVariant.NIL => "<null>"

/-- Example host: `bad` arguments cannot be boxed; stringify joins the
renderings with a blank and fails on a sequence holding a `NIL`; the sink
fails on the message "sink down". -/
def demo_host : Host DemoArg DemoVariant DemoFailure where
  variant := fun a =>
    match a with
    | DemoArg.bad tag => .error (DemoFailure.conversion tag)
    | a => .ok (demo_wrap a)
  stringify_variants := fun vs =>
    if DemoVariant.NIL ∈ vs then .error DemoFailure.stringify
    else .ok (" ".intercalate (vs.map demo_render))
  print_error := fun msg =>
    if msg = "sink down" then .error DemoFailure.sink else .ok ()


/-- The example host behind a header that declares `print_error(const String &)`. -/
def demo_header : Header DemoArg DemoVariant DemoFailure :=
  { toHost := demo_host, sink_decl := SinkDecl.of_String, string_arg := DemoArg.str }

/-- The example host behind a header that declares no `print_error` of its own. -/
def demo_header_without_sink : Header DemoArg DemoVariant DemoFailure :=
  { toHost := demo_host, sink_decl := SinkDecl.absent, string_arg := DemoArg.str }

/-! ## Projections of a trace -/

theorem sink_messages_append (t1 t2 : List (Event Arg Variant)) :
    sink_messages (t1 ++ t2) = sink_messages t1 ++ sink_messages t2 := by
  induction t1 with
  | nil => rfl
  | cons ev t ih => cases ev <;> simp [sink_messages, ih]

theorem stringify_calls_append (t1 t2 : List (Event Arg Variant)) :
    stringify_calls (t1 ++ t2) = stringify_calls t1 ++ stringify_calls t2 := by
  induction t1 with
  | nil => rfl
  | cons ev t ih => cases ev <;> simp [stringify_calls, ih]

theorem converted_append (t1 t2 : List (Event Arg Variant)) :
    converted (t1 ++ t2) = converted t1 ++ converted t2 := by
  induction t1 with
  | nil => rfl
  | cons ev t ih => cases ev <;> simp [converted, ih]

theorem sink_messages_map_convert (l : List Arg) :
    sink_messages (l.map (Event.convert : Arg → Event Arg Variant)) = [] := by
  induction l with
  | nil => rfl
  | cons a l ih => simpa [sink_messages] using ih

theorem stringify_calls_map_convert (l : List Arg) :
    stringify_calls (l.map (Event.convert : Arg → Event Arg Variant)) = [] := by
  induction l with
  | nil => rfl
  | cons a l ih => simpa [stringify_calls] using ih

theorem converted_map_convert (l : List Arg) :
    converted (l.map (Event.convert : Arg → Event Arg Variant)) = l := by
  induction l with
  | nil => rfl
  | cons a l ih => simpa [converted] using ih

/-! ## The array initialiser -/

theorem init_variants_ok (h : Host Arg Variant ε) (wrap : Arg → Variant) :
    ∀ (p_args : List Arg) (tr : List (Event Arg Variant)),
      (∀ a ∈ p_args, h.variant a = .ok (wrap a)) →
      init_variants h p_args tr = (tr ++ p_args.map Event.convert, .ok (p_args.map wrap)) := by
  intro p_args
  induction p_args with
  | nil => intro tr _; simp [init_variants]
  | cons a rest ih =>
    intro tr hconv
    have ha : h.variant a = .ok (wrap a) := hconv a (List.mem_cons_self a rest)
    have hrest : ∀ b ∈ rest, h.variant b = .ok (wrap b) :=
      fun b hb => hconv b (List.mem_cons_of_mem a hb)
    simp [init_variants, ha, ih (tr ++ [Event.convert a]) hrest]

theorem init_variants_error (h : Host Arg Variant ε) (wrap : Arg → Variant)
    (a : Arg) (e : ε) (post : List Arg) (ha : h.variant a = .error e) :
    ∀ (pre : List Arg) (tr : List (Event Arg Variant)),
      (∀ p ∈ pre, h.variant p = .ok (wrap p)) →
      init_variants h (pre ++ a :: post) tr
        = (tr ++ (pre ++ [a]).map Event.convert, .error e) := by
  intro pre
  induction pre with
  | nil => intro tr _; simp [init_variants, ha]
  | cons p pre ih =>
    intro tr hpre
    have hp : h.variant p = .ok (wrap p) := hpre p (List.mem_cons_self p pre)
    have hrest : ∀ b ∈ pre, h.variant b = .ok (wrap b) :=
      fun b hb => hpre b (List.mem_cons_of_mem p hb)
    simp [init_variants, hp, ih (tr ++ [Event.convert p]) hrest]

/-- Every run of the initialiser either boxes the whole pack, in order, or
stops at the left-most argument whose constructor fails; the calls it adds to
the trace do not depend on the trace it starts from. -/
theorem init_variants_cases (h : Host Arg Variant ε) :
    ∀ (p_args : List Arg),
      (∃ vs, List.Forall₂ (fun a v => h.variant a = .ok v) p_args vs ∧
        ∀ tr, init_variants h p_args tr = (tr ++ p_args.map Event.convert, .ok vs)) ∨
      (∃ pre a post e vs, p_args = pre ++ a :: post ∧
        List.Forall₂ (fun a v => h.variant a = .ok v) pre vs ∧
        h.variant a = .error e ∧
        ∀ tr, init_variants h p_args tr
          = (tr ++ (pre ++ [a]).map Event.convert, .error e)) := by
  intro p_args
  induction p_args with
  | nil => exact Or.inl ⟨[], List.Forall₂.nil, fun tr => by simp [init_variants]⟩
  | cons a rest ih =>
    cases ha : h.variant a with
    | error e =>
      exact Or.inr ⟨[], a, rest, e, [], rfl, List.Forall₂.nil, ha,
        fun tr => by simp [init_variants, ha]⟩
    | ok v =>
      rcases ih with ⟨vs, hvs, heq⟩ | ⟨pre, b, post, e, vs, hsplit, hvs, hb, heq⟩
      · exact Or.inl ⟨v :: vs, List.Forall₂.cons ha hvs,
          fun tr => by simp [init_variants, ha, heq]⟩
      · refine Or.inr ⟨a :: pre, b, post, e, v :: vs, by simp [hsplit],
          List.Forall₂.cons ha hvs, hb, fun tr => ?_⟩
        simp [init_variants, ha, heq]

theorem forall₂_variant_ok (h : Host Arg Variant ε) :
    ∀ (l : List Arg) (vs : List Variant),
      List.Forall₂ (fun a v => h.variant a = .ok v) l vs →
      ∀ p ∈ l, ∃ v, h.variant p = .ok v := by
  intro l vs hf
  induction hf with
  | nil => intro p hp; cases hp
  | @cons a v l vs hav _ ih =>
    intro p hp
    rcases List.mem_cons.mp hp with rfl | hp1
    · exact ⟨v, hav⟩
    · exact ih p hp1

/-! ## The template -/

theorem print_error_nil (h : Host Arg Variant ε) (tr : List (Event Arg Variant)) :
    print_error h [] tr = (tr, Outcome.ill_formed) := by
  simp [print_error, sizeof_pack]

theorem print_error_conversion_fails (h : Host Arg Variant ε) (wrap : Arg → Variant)
    (pre : List Arg) (a : Arg) (post : List Arg) (e : ε) (tr : List (Event Arg Variant))
    (hpre : ∀ p ∈ pre, h.variant p = .ok (wrap p)) (ha : h.variant a = .error e) :
    print_error h (pre ++ a :: post) tr
      = (tr ++ (pre ++ [a]).map Event.convert, Outcome.raised e) := by
  simp [print_error, sizeof_pack, init_variants_error h wrap a e post ha pre tr hpre]

theorem print_error_stringify_fails (h : Host Arg Variant ε) (wrap : Arg → Variant)
    (p_args : List Arg) (e : ε) (tr : List (Event Arg Variant)) (hne : p_args ≠ [])
    (hconv : ∀ a ∈ p_args, h.variant a = .ok (wrap a))
    (hstr : h.stringify_variants (p_args.map wrap) = .error e) :
    print_error h p_args tr
      = (tr ++ p_args.map Event.convert ++ [Event.stringify (p_args.map wrap)],
          Outcome.raised e) := by
  simp [print_error, sizeof_pack, hne, init_variants_ok h wrap p_args tr hconv, Span, hstr]

theorem print_error_sink_fails (h : Host Arg Variant ε) (wrap : Arg → Variant)
    (p_args : List Arg) (msg : String) (e : ε) (tr : List (Event Arg Variant))
    (hne : p_args ≠ [])
    (hconv : ∀ a ∈ p_args, h.variant a = .ok (wrap a))
    (hstr : h.stringify_variants (p_args.map wrap) = .ok msg)
    (hsink : h.print_error msg = .error e) :
    print_error h p_args tr
      = (tr ++ p_args.map Event.convert
            ++ [Event.stringify (p_args.map wrap), Event.sink msg],
          Outcome.raised e) := by
  simp [print_error, sizeof_pack, hne, init_variants_ok h wrap p_args tr hconv, Span, hstr,
    hsink]

theorem print_error_returns (h : Host Arg Variant ε) (wrap : Arg → Variant)
    (p_args : List Arg) (msg : String) (tr : List (Event Arg Variant))
    (hne : p_args ≠ [])
    (hconv : ∀ a ∈ p_args, h.variant a = .ok (wrap a))
    (hstr : h.stringify_variants (p_args.map wrap) = .ok msg)
    (hsink : h.print_error msg = .ok ()) :
    print_error h p_args tr
      = (tr ++ p_args.map Event.convert
            ++ [Event.stringify (p_args.map wrap), Event.sink msg],
          Outcome.returned) := by
  simp [print_error, sizeof_pack, hne, init_variants_ok h wrap p_args tr hconv, Span, hstr,
    hsink]

/-- The five ways a call can go, for an arbitrary host; in each the calls
added to the trace are the same whatever the trace before the call. -/
theorem print_error_cases (h : Host Arg Variant ε) (p_args : List Arg) :
    (p_args = [] ∧ ∀ tr, print_error h p_args tr = (tr, Outcome.ill_formed)) ∨
    (∃ pre a post e, p_args = pre ++ a :: post ∧ h.variant a = .error e ∧
      (∀ p ∈ pre, ∃ v, h.variant p = .ok v) ∧
      ∀ tr, print_error h p_args tr
        = (tr ++ (pre ++ [a]).map Event.convert, Outcome.raised e)) ∨
    (∃ vs, p_args ≠ [] ∧ List.Forall₂ (fun a v => h.variant a = .ok v) p_args vs ∧
      ((∃ e, h.stringify_variants vs = .error e ∧
          ∀ tr, print_error h p_args tr
            = (tr ++ p_args.map Event.convert ++ [Event.stringify vs], Outcome.raised e)) ∨
       (∃ msg e, h.stringify_variants vs = .ok msg ∧ h.print_error msg = .error e ∧
          ∀ tr, print_error h p_args tr
            = (tr ++ p_args.map Event.convert ++ [Event.stringify vs, Event.sink msg],
                Outcome.raised e)) ∨
       (∃ msg, h.stringify_variants vs = .ok msg ∧ h.print_error msg = .ok () ∧
          ∀ tr, print_error h p_args tr
            = (tr ++ p_args.map Event.convert ++ [Event.stringify vs, Event.sink msg],
                Outcome.returned)))) := by
  by_cases hne : p_args = []
  · subst hne
    exact Or.inl ⟨rfl, fun tr => print_error_nil h tr⟩
  · right
    rcases init_variants_cases h p_args with ⟨vs, hvs, heq⟩ | ⟨pre, a, post, e, vs, hsplit, hvs, ha, heq⟩
    · right
      refine ⟨vs, hne, hvs, ?_⟩
      cases hstr : h.stringify_variants vs with
      | error e =>
        exact Or.inl ⟨e, rfl, fun tr => by
          simp [print_error, sizeof_pack, hne, heq tr, Span, hstr]⟩
      | ok msg =>
        right
        cases hsink : h.print_error msg with
        | error e =>
          exact Or.inl ⟨msg, e, rfl, hsink, fun tr => by
            simp [print_error, sizeof_pack, hne, heq tr, Span, hstr, hsink]⟩
        | ok u =>
          exact Or.inr ⟨msg, rfl, hsink, fun tr => by
            simp [print_error, sizeof_pack, hne, heq tr, Span, hstr, hsink]⟩
    · left
      refine ⟨pre, a, post, e, hsplit, ha, ?_, fun tr => ?_⟩
      · exact forall₂_variant_ok h pre vs hvs
      · simp [print_error, sizeof_pack, hne, heq tr]

/-! ## The forwarding contract -/

/-- C1, as stated, fails for the empty argument list: on the example host
`stringify_variants` and the sink both succeed on what an empty sequence would
give, yet the call with no arguments is rejected and the sink is not called. -/
theorem print_error_empty_pack_makes_no_sink_call :
    demo_host.stringify_variants [] = .ok "" ∧
    demo_host.print_error "" = .ok () ∧
    call_outcome demo_host [] = Outcome.ill_formed ∧
    sink_messages (call_trace demo_host []) = [] :=
  ⟨rfl, rfl, rfl, rfl⟩

/-- C1, amended to argument lists of length N ≥ 1: when every conversion,
`stringify_variants` and the sink succeed, `print_error` returns, the sink is
called exactly once, and its message is exactly what `stringify_variants`
returned on `[wrap(args[0]), ..., wrap(args[N-1])]`; the whole trace of the
call is the N conversions, the stringify call and that sink call. -/
theorem print_error_forwards_stringified (h : Host Arg Variant ε) (wrap : Arg → Variant)
    (p_args : List Arg) (msg : String)
    (hne : p_args ≠ [])
    (hconv : ∀ a ∈ p_args, h.variant a = .ok (wrap a))
    (hstr : h.stringify_variants (p_args.map wrap) = .ok msg)
    (hsink : h.print_error msg = .ok ()) :
    call_outcome h p_args = Outcome.returned ∧
    sink_messages (call_trace h p_args) = [msg] ∧
    stringify_calls (call_trace h p_args) = [p_args.map wrap] ∧
    ∀ tr, print_error h p_args tr
      = (tr ++ p_args.map Event.convert
            ++ [Event.stringify (p_args.map wrap), Event.sink msg],
          Outcome.returned) := by
  have hrun := print_error_returns h wrap p_args msg
  refine ⟨?_, ?_, ?_, fun tr => hrun tr hne hconv hstr hsink⟩
  · simp [call_outcome, hrun [] hne hconv hstr hsink]
  · simp [call_trace, hrun [] hne hconv hstr hsink, sink_messages_append,
      sink_messages_map_convert, sink_messages]
  · simp [call_trace, hrun [] hne hconv hstr hsink, stringify_calls_append,
      stringify_calls_map_convert, stringify_calls]

/-- C1 on the example scenario: for the arguments "disk full", 42 the single
sink message is the rendering of `[wrap("disk full"), wrap(42)]`. -/
theorem print_error_forwards_stringified_witness :
    demo_host.stringify_variants
        [demo_wrap (DemoArg.str "disk full"), demo_wrap (DemoArg.int 42)]
      = .ok "disk full 42" ∧
    call_outcome demo_host [DemoArg.str "disk full", DemoArg.int 42] = Outcome.returned ∧
    sink_messages (call_trace demo_host [DemoArg.str "disk full", DemoArg.int 42])
      = ["disk full 42"] :=
  have t := print_error_forwards_stringified demo_host demo_wrap
    [DemoArg.str "disk full", DemoArg.int 42] "disk full 42"
    (by decide) (by decide) (by decide) (by decide)
  ⟨by decide, t.1, t.2.1⟩

/-- C2, as stated, fails for N = 0: the call with no arguments passes no
sequence at all to `stringify_variants`, not a sequence of length zero. -/
theorem print_error_empty_pack_passes_no_sequence :
    sizeof_pack ([] : List DemoArg) = 0 ∧
    stringify_calls (call_trace demo_host []) = [] :=
  ⟨rfl, rfl⟩

/-- C2, amended to N ≥ 1: when the N conversions succeed, `stringify_variants`
is passed one sequence, the wrapped arguments, whose length is the number N of
call-site arguments: every sequence passed to `stringify_variants` has exactly
N elements. -/
theorem print_error_passes_all_arguments (h : Host Arg Variant ε) (wrap : Arg → Variant)
    (p_args : List Arg)
    (hne : p_args ≠ [])
    (hconv : ∀ a ∈ p_args, h.variant a = .ok (wrap a)) :
    stringify_calls (call_trace h p_args) = [p_args.map wrap] ∧
    ∀ vs ∈ stringify_calls (call_trace h p_args), vs.length = sizeof_pack p_args := by
  have key : stringify_calls (call_trace h p_args) = [p_args.map wrap] := by
    cases hstr : h.stringify_variants (p_args.map wrap) with
    | error e =>
      simp [call_trace, print_error_stringify_fails h wrap p_args e [] hne hconv hstr,
        stringify_calls_append, stringify_calls_map_convert, stringify_calls]
    | ok msg =>
      cases hsink : h.print_error msg with
      | error e =>
        simp [call_trace, print_error_sink_fails h wrap p_args msg e [] hne hconv hstr hsink,
          stringify_calls_append, stringify_calls_map_convert, stringify_calls]
      | ok u =>
        simp [call_trace, print_error_returns h wrap p_args msg [] hne hconv hstr hsink,
          stringify_calls_append, stringify_calls_map_convert, stringify_calls]
  refine ⟨key, ?_⟩
  intro vs hvs
  rw [key] at hvs
  simp at hvs
  simp [hvs, sizeof_pack]

/-- C2 on three arguments of the example host. -/
theorem print_error_passes_all_arguments_witness :
    stringify_calls
        (call_trace demo_host [DemoArg.str "a", DemoArg.int 42, DemoArg.nil])
      = [[DemoVariant.STRING "a", DemoVariant.INT 42, DemoVariant.NIL]] ∧
    ∀ vs ∈ stringify_calls
        (call_trace demo_host [DemoArg.str "a", DemoArg.int 42, DemoArg.nil]),
      vs.length = 3 :=
  print_error_passes_all_arguments demo_host demo_wrap
    [DemoArg.str "a", DemoArg.int 42, DemoArg.nil] (by decide) (by decide)

/-- C3: when the conversions succeed, the sequence passed to
`stringify_variants` has, at every index i < N, the wrapped form of the i-th
call-site argument. -/
theorem print_error_preserves_order (h : Host Arg Variant ε) (wrap : Arg → Variant)
    (p_args : List Arg) (i : Nat)
    (hi : i < p_args.length)
    (hconv : ∀ a ∈ p_args, h.variant a = .ok (wrap a)) :
    ∃ vs, stringify_calls (call_trace h p_args) = [vs] ∧
      vs.length = p_args.length ∧ vs[i]? = some (wrap p_args[i]) := by
  have hne : p_args ≠ [] := by
    intro hnil
    rw [hnil] at hi
    exact Nat.not_lt_zero i hi
  refine ⟨p_args.map wrap, ?_, by simp, by simp [List.getElem?_eq_getElem hi]⟩
  cases hstr : h.stringify_variants (p_args.map wrap) with
  | error e =>
    simp [call_trace, print_error_stringify_fails h wrap p_args e [] hne hconv hstr,
      stringify_calls_append, stringify_calls_map_convert, stringify_calls]
  | ok msg =>
    cases hsink : h.print_error msg with
    | error e =>
      simp [call_trace, print_error_sink_fails h wrap p_args msg e [] hne hconv hstr hsink,
        stringify_calls_append, stringify_calls_map_convert, stringify_calls]
    | ok u =>
      simp [call_trace, print_error_returns h wrap p_args msg [] hne hconv hstr hsink,
        stringify_calls_append, stringify_calls_map_convert, stringify_calls]

/-- C3 on three arguments a, b, c of the example host, at the last index: the
sequence is `[wrap a, wrap b, wrap c]`. -/
theorem print_error_preserves_order_witness :
    ∃ vs, stringify_calls
          (call_trace demo_host [DemoArg.str "a", DemoArg.int 42, DemoArg.str "c"]) = [vs] ∧
      vs.length = 3 ∧ vs[2]? = some (DemoVariant.STRING "c") :=
  print_error_preserves_order demo_host demo_wrap
    [DemoArg.str "a", DemoArg.int 42, DemoArg.str "c"] 2 (by decide) (by decide)

/-- C5: when the `Variant` construction of at least one argument fails, the
sink is not called, `stringify_variants` is not called, and the call ends with
exactly the failure the construction raised: the trace is the conversions up
to and including the failing one. -/
theorem print_error_conversion_failure (h : Host Arg Variant ε) (p_args : List Arg)
    (hfail : ∃ a ∈ p_args, ∃ e, h.variant a = .error e) :
    sink_messages (call_trace h p_args) = [] ∧
    stringify_calls (call_trace h p_args) = [] ∧
    ∃ pre a post e, p_args = pre ++ a :: post ∧
      (∀ p ∈ pre, ∃ v, h.variant p = .ok v) ∧
      h.variant a = .error e ∧
      call_outcome h p_args = Outcome.raised e ∧
      call_trace h p_args = (pre ++ [a]).map Event.convert := by
  obtain ⟨b, hb, eb, hbe⟩ := hfail
  rcases print_error_cases h p_args with ⟨hnil, _⟩ | ⟨pre, a, post, e, hsplit, ha, hpre, heq⟩ |
    ⟨vs, _, hvs, _⟩
  · rw [hnil] at hb
    cases hb
  · have htr : call_trace h p_args = (pre ++ [a]).map Event.convert := by
      simp [call_trace, heq []]
    refine ⟨?_, ?_, pre, a, post, e, hsplit, hpre, ha, by simp [call_outcome, heq []], htr⟩
    · rw [htr]
      exact sink_messages_map_convert _
    · rw [htr]
      exact stringify_calls_map_convert _
  · obtain ⟨v, hv⟩ := forall₂_variant_ok h p_args vs hvs b hb
    rw [hbe] at hv
    cases hv

/-- C5 on the example host: the second of three arguments cannot be boxed. -/
theorem print_error_conversion_failure_witness :
    sink_messages
        (call_trace demo_host [DemoArg.str "x", DemoArg.bad 7, DemoArg.int 42]) = [] ∧
    stringify_calls
        (call_trace demo_host [DemoArg.str "x", DemoArg.bad 7, DemoArg.int 42]) = [] ∧
    call_outcome demo_host [DemoArg.str "x", DemoArg.bad 7, DemoArg.int 42]
      = Outcome.raised (DemoFailure.conversion 7) :=
  have t := print_error_conversion_failure demo_host
    [DemoArg.str "x", DemoArg.bad 7, DemoArg.int 42]
    ⟨DemoArg.bad 7, by decide, DemoFailure.conversion 7, rfl⟩
  ⟨t.1, t.2.1, by decide⟩

/-- C6: collaborator failures pass through unchanged.  With all conversions
done, a failure of `stringify_variants` is the failure of the call and the sink
is not called; a failure of the sink is the failure of the call; each of the
two is called once, never again.  Stated on the calls actually made as well:
a failing stringify call or sink call in the trace is the failure of the call.
And the call fails with `e` only if a collaborator call it made failed with
`e`. -/
theorem print_error_passes_failures_through (h : Host Arg Variant ε) (p_args : List Arg) :
    (∀ (wrap : Arg → Variant) (e : ε), p_args ≠ [] →
      (∀ a ∈ p_args, h.variant a = .ok (wrap a)) →
      h.stringify_variants (p_args.map wrap) = .error e →
      call_outcome h p_args = Outcome.raised e ∧
      sink_messages (call_trace h p_args) = [] ∧
      stringify_calls (call_trace h p_args) = [p_args.map wrap]) ∧
    (∀ (wrap : Arg → Variant) (msg : String) (e : ε), p_args ≠ [] →
      (∀ a ∈ p_args, h.variant a = .ok (wrap a)) →
      h.stringify_variants (p_args.map wrap) = .ok msg →
      h.print_error msg = .error e →
      call_outcome h p_args = Outcome.raised e ∧
      sink_messages (call_trace h p_args) = [msg] ∧
      stringify_calls (call_trace h p_args) = [p_args.map wrap]) ∧
    (∀ (vs : List Variant) (e : ε), Event.stringify vs ∈ call_trace h p_args →
      h.stringify_variants vs = .error e →
      call_outcome h p_args = Outcome.raised e ∧ sink_messages (call_trace h p_args) = []) ∧
    (∀ (msg : String) (e : ε), Event.sink msg ∈ call_trace h p_args →
      h.print_error msg = .error e →
      call_outcome h p_args = Outcome.raised e) ∧
    (∀ e : ε, call_outcome h p_args = Outcome.raised e →
      (∃ a, Event.convert a ∈ call_trace h p_args ∧ h.variant a = .error e) ∨
      (∃ vs, Event.stringify vs ∈ call_trace h p_args ∧ h.stringify_variants vs = .error e) ∨
      (∃ msg, Event.sink msg ∈ call_trace h p_args ∧ h.print_error msg = .error e)) := by
  refine ⟨?_, ?_, ?_, ?_, ?_⟩
  · intro wrap e hne hconv hstr
    have hrun := print_error_stringify_fails h wrap p_args e [] hne hconv hstr
    simp [call_outcome, call_trace, hrun, sink_messages_append, sink_messages_map_convert,
      stringify_calls_append, stringify_calls_map_convert, sink_messages, stringify_calls]
  · intro wrap msg e hne hconv hstr hsink
    have hrun := print_error_sink_fails h wrap p_args msg e [] hne hconv hstr hsink
    simp [call_outcome, call_trace, hrun, sink_messages_append, sink_messages_map_convert,
      stringify_calls_append, stringify_calls_map_convert, sink_messages, stringify_calls]
  · intro ws e hmem hstr
    rcases print_error_cases h p_args with ⟨_, heq⟩ | ⟨pre, a, post, e1, _, _, _, heq⟩ |
      ⟨vs, _, _, ⟨e1, hs, heq⟩ | ⟨msg, e1, hs, _, heq⟩ | ⟨msg, hs, _, heq⟩⟩
    · simp [call_trace, heq []] at hmem
    · simp [call_trace, heq []] at hmem
    · simp [call_trace, heq []] at hmem
      subst hmem
      rw [hs] at hstr
      injection hstr with hee
      simp [call_outcome, call_trace, heq [], hee, sink_messages_append,
        sink_messages_map_convert, sink_messages]
    · simp [call_trace, heq []] at hmem
      subst hmem
      rw [hs] at hstr
      cases hstr
    · simp [call_trace, heq []] at hmem
      subst hmem
      rw [hs] at hstr
      cases hstr
  · intro m e hmem hsink
    rcases print_error_cases h p_args with ⟨_, heq⟩ | ⟨pre, a, post, e1, _, _, _, heq⟩ |
      ⟨vs, _, _, ⟨e1, _, heq⟩ | ⟨msg, e1, _, hk, heq⟩ | ⟨msg, _, hk, heq⟩⟩
    · simp [call_trace, heq []] at hmem
    · simp [call_trace, heq []] at hmem
    · simp [call_trace, heq []] at hmem
    · simp [call_trace, heq []] at hmem
      subst hmem
      rw [hk] at hsink
      injection hsink with hee
      simp [call_outcome, heq [], hee]
    · simp [call_trace, heq []] at hmem
      subst hmem
      rw [hk] at hsink
      cases hsink
  · intro e hout
    rcases print_error_cases h p_args with ⟨_, heq⟩ | ⟨pre, a, post, e1, _, ha, _, heq⟩ |
      ⟨vs, _, _, ⟨e1, hs, heq⟩ | ⟨msg, e1, _, hk, heq⟩ | ⟨msg, _, _, heq⟩⟩
    · simp [call_outcome, heq []] at hout
    · simp [call_outcome, heq []] at hout
      subst hout
      exact Or.inl ⟨a, by simp [call_trace, heq []], ha⟩
    · simp [call_outcome, heq []] at hout
      subst hout
      exact Or.inr (Or.inl ⟨vs, by simp [call_trace, heq []], hs⟩)
    · simp [call_outcome, heq []] at hout
      subst hout
      exact Or.inr (Or.inr ⟨msg, by simp [call_trace, heq []], hk⟩)
    · simp [call_outcome, heq []] at hout

/-- C6 on the example host: a sequence holding a null value makes stringify
fail, the message "sink down" makes the sink fail. -/
theorem print_error_passes_failures_through_witness :
    (call_outcome demo_host [DemoArg.str "a", DemoArg.nil]
        = Outcome.raised DemoFailure.stringify ∧
      sink_messages (call_trace demo_host [DemoArg.str "a", DemoArg.nil]) = []) ∧
    (call_outcome demo_host [DemoArg.str "sink", DemoArg.str "down"]
        = Outcome.raised DemoFailure.sink ∧
      sink_messages (call_trace demo_host [DemoArg.str "sink", DemoArg.str "down"])
        = ["sink down"]) :=
  have t1 := (print_error_passes_failures_through demo_host
    [DemoArg.str "a", DemoArg.nil]).1 demo_wrap DemoFailure.stringify
    (by decide) (by decide) (by decide)
  have t2 := (print_error_passes_failures_through demo_host
    [DemoArg.str "sink", DemoArg.str "down"]).2.1 demo_wrap "sink down" DemoFailure.sink
    (by decide) (by decide) (by decide) (by decide)
  ⟨⟨t1.1, t1.2.1⟩, ⟨t2.1, t2.2.1⟩⟩

/-- What a call adds to the trace and how it ends do not depend on the trace
before the call. -/
theorem print_error_trace_independent (h : Host Arg Variant ε) (p_args : List Arg)
    (tr : List (Event Arg Variant)) :
    print_error h p_args tr = (tr ++ call_trace h p_args, call_outcome h p_args) := by
  rcases print_error_cases h p_args with ⟨_, heq⟩ | ⟨pre, a, post, e1, _, _, _, heq⟩ |
    ⟨vs, _, _, ⟨e1, _, heq⟩ | ⟨msg, e1, _, _, heq⟩ | ⟨msg, _, _, heq⟩⟩ <;>
  simp [call_trace, call_outcome, heq tr, heq []]

/-- C7: `print_error` keeps no state.  A call made after any earlier calls
adds to the trace exactly what it adds on its own and ends the same way; the
sink receives the same messages from it; and the trace of a sequence of calls
is the concatenation of the traces of the calls made alone, their outcomes
the outcomes of the calls made alone. -/
theorem print_error_stateless (h : Host Arg Variant ε) :
    (∀ (p_args : List Arg) (tr : List (Event Arg Variant)),
      print_error h p_args tr = (tr ++ call_trace h p_args, call_outcome h p_args)) ∧
    (∀ (p_args : List Arg) (tr : List (Event Arg Variant)),
      sink_messages (print_error h p_args tr).1
        = sink_messages tr ++ sink_messages (call_trace h p_args)) ∧
    (∀ (calls : List (List Arg)) (tr : List (Event Arg Variant)),
      run_calls h calls tr
        = (tr ++ (calls.map (call_trace h)).flatten, calls.map (call_outcome h))) := by
  refine ⟨print_error_trace_independent h, ?_, ?_⟩
  · intro p_args tr
    rw [print_error_trace_independent h p_args tr]
    exact sink_messages_append _ _
  · intro calls
    induction calls with
    | nil => intro tr; simp [run_calls]
    | cons c cs ih =>
      intro tr
      simp [run_calls, print_error_trace_independent h c tr, ih]

/-- C8: conversions run left to right, once each, and all of them before the
one call of `stringify_variants`.  (1) If the arguments before `a` convert and
`a` does not, the call ends with the failure of `a` after converting exactly
the arguments up to `a`; nothing to the right of `a` is converted, whatever it
is.  (2) If all N ≥ 1 arguments convert, the trace starts with the N
conversions in call order, then the stringify call on the whole sequence, and
nothing after it is a conversion or a stringify call.  (3) For any host, the
converted arguments are a prefix of the pack, stringify is called at most once,
and when it is called the whole pack was converted before it. -/
theorem print_error_converts_left_to_right (h : Host Arg Variant ε) :
    (∀ (wrap : Arg → Variant) (pre : List Arg) (a : Arg) (post : List Arg) (e : ε)
        (tr : List (Event Arg Variant)),
      (∀ p ∈ pre, h.variant p = .ok (wrap p)) → h.variant a = .error e →
      print_error h (pre ++ a :: post) tr
        = (tr ++ (pre ++ [a]).map Event.convert, Outcome.raised e)) ∧
    (∀ (wrap : Arg → Variant) (p_args : List Arg), p_args ≠ [] →
      (∀ a ∈ p_args, h.variant a = .ok (wrap a)) →
      ∃ tail, call_trace h p_args
          = p_args.map Event.convert ++ Event.stringify (p_args.map wrap) :: tail ∧
        converted tail = [] ∧ stringify_calls tail = []) ∧
    (∀ p_args : List Arg,
      converted (call_trace h p_args) <+: p_args ∧
      (stringify_calls (call_trace h p_args)).length ≤ 1 ∧
      ∀ vs, Event.stringify vs ∈ call_trace h p_args →
        List.Forall₂ (fun a v => h.variant a = .ok v) p_args vs ∧
        ∃ tail, call_trace h p_args
            = p_args.map Event.convert ++ Event.stringify vs :: tail ∧
          converted tail = [] ∧ stringify_calls tail = []) := by
  refine ⟨?_, ?_, ?_⟩
  · intro wrap pre a post e tr hpre ha
    exact print_error_conversion_fails h wrap pre a post e tr hpre ha
  · intro wrap p_args hne hconv
    cases hstr : h.stringify_variants (p_args.map wrap) with
    | error e =>
      exact ⟨[], by
        simp [call_trace, print_error_stringify_fails h wrap p_args e [] hne hconv hstr],
        rfl, rfl⟩
    | ok msg =>
      cases hsink : h.print_error msg with
      | error e =>
        exact ⟨[Event.sink msg], by
          simp [call_trace, print_error_sink_fails h wrap p_args msg e [] hne hconv hstr hsink],
          rfl, rfl⟩
      | ok u =>
        exact ⟨[Event.sink msg], by
          simp [call_trace, print_error_returns h wrap p_args msg [] hne hconv hstr hsink],
          rfl, rfl⟩
  · intro p_args
    rcases print_error_cases h p_args with ⟨hnil, heq⟩ | ⟨pre, a, post, e1, hsplit, _, _, heq⟩ |
      ⟨vs, _, hvs, ⟨e1, _, heq⟩ | ⟨msg, e1, _, _, heq⟩ | ⟨msg, _, _, heq⟩⟩
    · simp [call_trace, heq [], converted, stringify_calls]
    · refine ⟨?_, ?_, ?_⟩
      · rw [call_trace, heq [], List.nil_append, converted_map_convert, hsplit]
        exact ⟨post, by simp⟩
      · rw [call_trace, heq [], List.nil_append, stringify_calls_map_convert]
        simp
      · intro ws hmem
        simp [call_trace, heq []] at hmem
    · refine ⟨?_, ?_, ?_⟩
      · simp [call_trace, heq [], converted_append, converted_map_convert, converted]
      · simp [call_trace, heq [], stringify_calls_append, stringify_calls_map_convert,
          stringify_calls]
      · intro ws hmem
        simp [call_trace, heq []] at hmem
        subst hmem
        exact ⟨hvs, [], by simp [call_trace, heq []], rfl, rfl⟩
    · refine ⟨?_, ?_, ?_⟩
      · simp [call_trace, heq [], converted_append, converted_map_convert, converted]
      · simp [call_trace, heq [], stringify_calls_append, stringify_calls_map_convert,
          stringify_calls]
      · intro ws hmem
        simp [call_trace, heq []] at hmem
        subst hmem
        exact ⟨hvs, [Event.sink msg], by simp [call_trace, heq []], rfl, rfl⟩
    · refine ⟨?_, ?_, ?_⟩
      · simp [call_trace, heq [], converted_append, converted_map_convert, converted]
      · simp [call_trace, heq [], stringify_calls_append, stringify_calls_map_convert,
          stringify_calls]
      · intro ws hmem
        simp [call_trace, heq []] at hmem
        subst hmem
        exact ⟨hvs, [Event.sink msg], by simp [call_trace, heq []], rfl, rfl⟩

/-- C8 on the example host: of two arguments that cannot be boxed, the caller
sees the failure of the left one, and the right one is never converted. -/
theorem print_error_converts_left_to_right_witness :
    print_error demo_host [DemoArg.str "x", DemoArg.bad 7, DemoArg.bad 9, DemoArg.int 42] []
      = ([Event.convert (DemoArg.str "x"), Event.convert (DemoArg.bad 7)],
          Outcome.raised (DemoFailure.conversion 7)) ∧
    ∃ tail, call_trace demo_host [DemoArg.str "x", DemoArg.int 42]
        = [Event.convert (DemoArg.str "x"), Event.convert (DemoArg.int 42)]
            ++ Event.stringify [DemoVariant.STRING "x", DemoVariant.INT 42] :: tail ∧
      converted tail = [] ∧ stringify_calls tail = [] :=
  ⟨(print_error_converts_left_to_right demo_host).1 demo_wrap [DemoArg.str "x"]
      (DemoArg.bad 7) [DemoArg.bad 9, DemoArg.int 42] (DemoFailure.conversion 7) []
      (by decide) (by decide),
   (print_error_converts_left_to_right demo_host).2.1 demo_wrap
      [DemoArg.str "x", DemoArg.int 42] (by decide) (by decide)⟩

/-! ## Resolution of the call on line 11 -/

theorem resolve_inner_call_of_String :
    resolve_inner_call SinkDecl.of_String = Callee.host_sink := rfl

/-- The calls one call of `print_error` makes, counted. -/
theorem print_error_call_counts (h : Host Arg Variant ε) (p_args : List Arg) :
    (converted (call_trace h p_args)).length ≤ sizeof_pack p_args ∧
    (stringify_calls (call_trace h p_args)).length ≤ 1 ∧
    (sink_messages (call_trace h p_args)).length ≤ 1 ∧
    (call_trace h p_args).length ≤ sizeof_pack p_args + 2 ∧
    (p_args ≠ [] → 1 ≤ (converted (call_trace h p_args)).length) ∧
    (call_outcome h p_args = Outcome.returned →
      converted (call_trace h p_args) = p_args ∧
      (stringify_calls (call_trace h p_args)).length = 1 ∧
      (sink_messages (call_trace h p_args)).length = 1 ∧
      (call_trace h p_args).length = sizeof_pack p_args + 2) := by
  rcases print_error_cases h p_args with ⟨hnil, heq⟩ | ⟨pre, a, post, e1, hsplit, _, _, heq⟩ |
    ⟨vs, hne, hvs, ⟨e1, _, heq⟩ | ⟨msg, e1, _, _, heq⟩ | ⟨msg, _, _, heq⟩⟩
  · rw [call_trace, call_outcome, heq []]
    simp [converted, stringify_calls, sink_messages, hnil]
  · rw [call_trace, call_outcome, heq [], List.nil_append, converted_map_convert,
      stringify_calls_map_convert, sink_messages_map_convert, hsplit]
    simp [sizeof_pack]
    omega
  · have hpos : 0 < p_args.length := List.length_pos.mpr hne
    simp [call_trace, call_outcome, heq [], converted_append, converted_map_convert,
      stringify_calls_append, stringify_calls_map_convert, sink_messages_append,
      sink_messages_map_convert, converted, stringify_calls, sink_messages, sizeof_pack]
    omega
  · have hpos : 0 < p_args.length := List.length_pos.mpr hne
    simp [call_trace, call_outcome, heq [], converted_append, converted_map_convert,
      stringify_calls_append, stringify_calls_map_convert, sink_messages_append,
      sink_messages_map_convert, converted, stringify_calls, sink_messages, sizeof_pack]
    omega
  · have hpos : 0 < p_args.length := List.length_pos.mpr hne
    simp [call_trace, call_outcome, heq [], converted_append, converted_map_convert,
      stringify_calls_append, stringify_calls_map_convert, sink_messages_append,
      sink_messages_map_convert, converted, stringify_calls, sink_messages, sizeof_pack]
    omega

/-- When the resolution reaches the host sink, one unit of fuel is enough for
any pack, and the run is the run of `print_error` on the host. -/
theorem print_error_fuel_resolved (d : Header Arg Variant ε)
    (hd : resolve_inner_call d.sink_decl = Callee.host_sink)
    (fuel : Nat) (p_args : List Arg) (tr : List (Event Arg Variant)) :
    print_error_fuel d (fuel + 1) p_args tr
      = { trace := (print_error d.toHost p_args tr).1,
          entries := if sizeof_pack p_args = 0 then 0 else 1,
          outcome := some (print_error d.toHost p_args tr).2 } := by
  unfold print_error_fuel print_error
  by_cases h0 : sizeof_pack p_args = 0
  · simp [h0]
  · simp only [h0, if_false]
    rcases hinit : init_variants d.toHost p_args tr with ⟨tr1, r⟩
    cases r with
    | error e => rfl
    | ok variants =>
      simp only []
      cases hstr : d.stringify_variants (Span variants) with
      | error e => rfl
      | ok msg =>
        simp only [hd]
        cases hsink : d.print_error msg with
        | error e => rfl
        | ok u => rfl

/-- When the resolution reaches the template again and nothing fails, no
amount of fuel ends the call: every entry of the body leads to another one. -/
theorem print_error_fuel_reenters (d : Header Arg Variant ε)
    (hd : resolve_inner_call d.sink_decl = Callee.variadic_template)
    (hv : ∀ a, ∃ v, d.variant a = .ok v)
    (hs : ∀ vs, ∃ msg, d.stringify_variants vs = .ok msg) :
    ∀ (fuel : Nat) (p_args : List Arg) (tr : List (Event Arg Variant)), p_args ≠ [] →
      (print_error_fuel d fuel p_args tr).outcome = none ∧
      (print_error_fuel d fuel p_args tr).entries = fuel := by
  intro fuel
  induction fuel with
  | zero => intro p_args tr _; exact ⟨rfl, rfl⟩
  | succ n ih =>
    intro p_args tr hne
    have h0 : sizeof_pack p_args ≠ 0 := by
      simpa [sizeof_pack] using hne
    rcases init_variants_cases d.toHost p_args with ⟨vs, _, heq⟩ |
      ⟨pre, a, post, e, ws, _, _, ha, _⟩
    · obtain ⟨msg, hmsg⟩ := hs vs
      have hrec := ih [d.string_arg msg]
        (tr ++ p_args.map Event.convert ++ [Event.stringify vs]) (by simp)
      unfold print_error_fuel
      simp only [h0, if_false, heq tr, Span, hmsg, hd]
      exact ⟨hrec.1, by rw [hrec.2]⟩
    · obtain ⟨v, hv1⟩ := hv a
      rw [ha] at hv1
      cases hv1

/-- C9: the call on line 11 does not enter the template again.  For a header
that declares `print_error(const String &)`, overload resolution between that
function and the template reaches the host sink; so for every pack, every
earlier trace and every positive amount of fuel the call ends (its outcome is
that of `print_error` on the host, its trace the earlier trace followed by the
calls of that call), the body of the template is entered at most once, exactly
once for a non-empty pack, and the collaborator calls are bounded: at most N
conversions (at least one for a non-empty pack), at most one stringify call,
at most one sink call, and exactly N, one and one when the call returns. -/
theorem print_error_dispatches_to_sink (d : Header Arg Variant ε)
    (hd : d.sink_decl = SinkDecl.of_String)
    (p_args : List Arg) (tr : List (Event Arg Variant)) (fuel : Nat) :
    resolve_inner_call d.sink_decl = Callee.host_sink ∧
    (print_error_fuel d (fuel + 1) p_args tr).outcome = some (call_outcome d.toHost p_args) ∧
    (print_error_fuel d (fuel + 1) p_args tr).trace = tr ++ call_trace d.toHost p_args ∧
    (print_error_fuel d (fuel + 1) p_args tr).entries ≤ 1 ∧
    (p_args ≠ [] → (print_error_fuel d (fuel + 1) p_args tr).entries = 1) ∧
    (converted (call_trace d.toHost p_args)).length ≤ sizeof_pack p_args ∧
    (stringify_calls (call_trace d.toHost p_args)).length ≤ 1 ∧
    (sink_messages (call_trace d.toHost p_args)).length ≤ 1 ∧
    (p_args ≠ [] → 1 ≤ (converted (call_trace d.toHost p_args)).length) ∧
    (call_outcome d.toHost p_args = Outcome.returned →
      converted (call_trace d.toHost p_args) = p_args ∧
      (stringify_calls (call_trace d.toHost p_args)).length = 1 ∧
      (sink_messages (call_trace d.toHost p_args)).length = 1 ∧
      (call_trace d.toHost p_args).length = sizeof_pack p_args + 2) := by
  have hres : resolve_inner_call d.sink_decl = Callee.host_sink := by
    rw [hd]
    exact resolve_inner_call_of_String
  have hrun := print_error_fuel_resolved d hres fuel p_args tr
  have hind := print_error_trace_independent d.toHost p_args tr
  have hcount := print_error_call_counts d.toHost p_args
  refine ⟨hres, ?_, ?_, ?_, ?_, hcount.1, hcount.2.1, hcount.2.2.1, hcount.2.2.2.2.1,
    hcount.2.2.2.2.2⟩
  · rw [hrun, hind]
  · rw [hrun, hind]
  · rw [hrun]
    by_cases h0 : sizeof_pack p_args = 0 <;> simp [h0]
  · intro hne
    have h0 : sizeof_pack p_args ≠ 0 := by
      simpa [sizeof_pack] using hne
    rw [hrun]
    simp [h0]

/-- C9 on the example scenario: with one unit of fuel the call returns after
one entry of the template, two conversions, one stringify call and one sink
call. -/
theorem print_error_dispatches_to_sink_witness :
    demo_header.sink_decl = SinkDecl.of_String ∧
    (print_error_fuel demo_header 1 [DemoArg.str "disk full", DemoArg.int 42] []).outcome
      = some Outcome.returned ∧
    (print_error_fuel demo_header 1 [DemoArg.str "disk full", DemoArg.int 42] []).entries = 1 ∧
    (print_error_fuel demo_header 1 [DemoArg.str "disk full", DemoArg.int 42] []).trace
      = [Event.convert (DemoArg.str "disk full"), Event.convert (DemoArg.int 42),
         Event.stringify [DemoVariant.STRING "disk full", DemoVariant.INT 42],
         Event.sink "disk full 42"] :=
  have t := print_error_dispatches_to_sink demo_header rfl
    [DemoArg.str "disk full", DemoArg.int 42] [] 0
  ⟨rfl, t.2.1.trans (by decide), t.2.2.2.2.1 (by decide), t.2.2.1.trans (by decide)⟩

end godot
